import Mathlib

/-!
Verification of the batch command executor (`execute_commands.py`).

The program loads a JSON dataset of conversations, executes each human turn's
text as a shell command, writes the captured output into the paired gpt turn,
checkpoints the whole dataset every 10 conversations, and saves at the end.

The shallow embedding below models the subprocess layer as an oracle
`String → ExecResult` mapping a command string to the observable outcome of
running it (completion with an exit code and captured stdout/stderr, a
timeout, or a launch failure).  File writes are modelled by collecting the
list of dataset snapshots written to the output path, in chronological order.
-/

namespace ExecCmd

/-- A turn record (`{from, value, ...}`).  Python dict access via `.get` is
modelled with `Option` fields; extra keys are carried in `other`. -/
structure Turn where
  fromField : Option String
  value : Option String
  other : List (String × String)
deriving DecidableEq, Repr

/-- A conversation record: an optional `conversations` list of turns, plus
all other fields carried through in `other`. -/
structure Conversation where
  conversations : Option (List Turn)
  other : List (String × String)
deriving DecidableEq, Repr

/-- Observable outcome of `subprocess.run(command, shell=True, ...)`:
completion with an exit code and captured streams, `TimeoutExpired`, or any
other raised exception with its message. -/
inductive ExecResult where
  | ok (exitCode : Int) (stdout : String) (stderr : String)
  | timeout
  | error (msg : String)
deriving DecidableEq, Repr

/-- Model of `execute_command(command, timeout)`: runs the command via the oracle,
merges stdout with (non-empty) stderr separated by a newline, strips the
result, and converts timeouts and launch failures to literal marker text. -/
def execute_command (oracle : String → ExecResult) (command : String)
    (timeout : Nat) : String :=
  match oracle command with
  | .ok _exitCode stdout stderr =>
      let output := stdout
      let output := if stderr ≠ "" then
          (if output ≠ "" then output ++ "\n" ++ stderr else stderr)
        else output
      if output ≠ "" then output.trim else ""
  | .timeout => "[命令执行超时: " ++ toString timeout ++ "秒]"
  | .error msg => "[命令执行错误: " ++ msg ++ "]"

/-- The inner pair loop of `process_conversations`:
`for i in range(0, len(conversations_list), 2)` with `break` when fewer than
two turns remain.  Returns the updated turn list together with the list of
indices `i` for which the format warning was printed.  `i` is the position of
the first turn of the current pair. -/
def processPairs (oracle : String → ExecResult) (timeout : Nat) :
    Nat → List Turn → List Turn × List Nat
  | _, [] => ([], [])
  | _, [t] => ([t], [])
  | i, human_entry :: gpt_entry :: rest =>
      if human_entry.fromField ≠ some "human" ∨ gpt_entry.fromField ≠ some "gpt" then
        let res := processPairs oracle timeout (i + 2) rest
        (human_entry :: gpt_entry :: res.1, i :: res.2)
      else
        let command := human_entry.value.getD ""
        let output := execute_command oracle command timeout
        let res := processPairs oracle timeout (i + 2) rest
        (human_entry :: { gpt_entry with value := some output } :: res.1, res.2)

/-- Processing of one conversation: `conversation.get("conversations", [])`
followed by the pair loop.  A missing `conversations` key yields the fresh
default `[]`, which is not written back, so the record is unchanged. -/
def processConversation (oracle : String → ExecResult) (timeout : Nat)
    (conversation : Conversation) : Conversation :=
  match conversation.conversations with
  | none => conversation
  | some conversations_list =>
      { conversation with
        conversations := some (processPairs oracle timeout 0 conversations_list).1 }

/-- Model of `data[conv_idx] = processConversation data[conv_idx]` — the in-place
mutation of one dataset entry.  The loop only calls this with
`conv_idx < data.length`. -/
def updateAt (oracle : String → ExecResult) (timeout : Nat)
    (data : List Conversation) (conv_idx : Nat) : List Conversation :=
  match data[conv_idx]? with
  | some conversation =>
      data.set conv_idx (processConversation oracle timeout conversation)
  | none => data

/-- The conversation loop `for conv_idx in range(start_index, end_index)`,
with `fuel = end_index - start_index` remaining iterations.  Returns the
final dataset and the chronological list of checkpoint snapshots written when
`(conv_idx + 1) % 10 == 0`. -/
def runLoop (oracle : String → ExecResult) (timeout : Nat) :
    Nat → Nat → List Conversation → List Conversation × List (List Conversation)
  | _, 0, data => (data, [])
  | conv_idx, fuel + 1, data =>
      let data2 := updateAt oracle timeout data conv_idx
      let rest := runLoop oracle timeout (conv_idx + 1) fuel data2
      if (conv_idx + 1) % 10 = 0 then (rest.1, data2 :: rest.2) else rest

/-- Model of `if end_index is None or end_index > total_conversations:
end_index = total_conversations`. -/
def effectiveEnd (total : Nat) (end_index : Option Nat) : Nat :=
  match end_index with
  | none => total
  | some e => if e > total then total else e

/-- Model of `process_conversations`: clamp the end index, run the conversation loop,
and append the unconditional final save.  The second component is the list of
all dataset states written to the output file, in order (checkpoints followed
by the final save). -/
def process_conversations (oracle : String → ExecResult) (timeout : Nat)
    (data : List Conversation) (start_index : Nat) (end_index : Option Nat) :
    List Conversation × List (List Conversation) :=
  let total := data.length
  let endIdx := effectiveEnd total end_index
  let res := runLoop oracle timeout start_index (endIdx - start_index) data
  (res.1, res.2 ++ [res.1])

/-- Modelled from the spec (§4.2 checkpointing / §8 checkpoint property):
the dataset state in which the first `n` conversations have been processed
and all later conversations are still untouched. -/
def processedUpTo (oracle : String → ExecResult) (timeout : Nat)
    (data : List Conversation) (n : Nat) : List Conversation :=
  (data.take n).map (processConversation oracle timeout) ++ data.drop n

/-- The frame-effect contract on one conversation's turn list: length is
preserved, turns at even positions (the human side of each pair) are
byte-for-byte unchanged, `from` fields and extra turn fields are preserved
everywhere, and the second turn of an invalidly-paired pair is unchanged. -/
def turnsFramePreserved (ts ts2 : List Turn) : Prop :=
  ts2.length = ts.length ∧
  (∀ j : Nat, j % 2 = 0 → ts2[j]? = ts[j]?) ∧
  (∀ j : Nat, (ts2[j]?).map (fun turn : Turn => (turn.fromField, turn.other)) =
    (ts[j]?).map (fun turn : Turn => (turn.fromField, turn.other))) ∧
  (∀ (j : Nat) (hu gu : Turn), j % 2 = 0 → ts[j]? = some hu → ts[j + 1]? = some gu →
    (hu.fromField ≠ some "human" ∨ gu.fromField ≠ some "gpt") →
    ts2[j + 1]? = ts[j + 1]?)

/-- The frame-effect contract on one conversation: every field other than
`conversations` is unchanged and the turn list obeys `turnsFramePreserved`
(a missing turn list stays missing). -/
def conversationFramePreserved (c c2 : Conversation) : Prop :=
  c2.other = c.other ∧
  ((c.conversations = none ∧ c2.conversations = none) ∨
   (∃ ts ts2, c.conversations = some ts ∧ c2.conversations = some ts2 ∧
     turnsFramePreserved ts ts2))

/-- Trimming the empty string yields the empty string. -/
theorem trim_empty : ("" : String).trim = "" := by
  simp only [String.trim, String.toSubstring, Substring.trim]
  rw [Substring.takeWhileAux]
  rw [Substring.takeRightWhileAux]
  norm_num [String.endPos, String.utf8ByteSize, Substring.toString, Substring.extract]
  rfl

/-- The combined stdout-newline-stderr text is never the empty string. -/
theorem combined_ne_empty (stdout stderr : String) :
    stdout ++ "\n" ++ stderr ≠ "" := by
  intro heq
  have hl := congrArg String.length heq
  simp [String.length_append] at hl
  exact absurd hl.1.2 (by decide)

/-- Modelled from the spec (§4.1 result composition): the combined output as
the specification words it — stderr appended after stdout separated by a
newline when stdout is non-empty, stderr alone when stdout is empty, and the
whole trimmed of leading/trailing whitespace. -/
def specCombinedOutput (stdout stderr : String) : String :=
  (if stderr = "" then stdout
   else if stdout = "" then stderr
   else stdout ++ "\n" ++ stderr).trim

/-- C1: for every command whose subprocess completes within the timeout,
`execute_command` returns the trimmed combination of captured stdout and
stderr (stderr appended after a newline when stdout is non-empty, alone when
stdout is empty), and an entirely empty result yields the empty string. -/
theorem execute_command_ok (oracle : String → ExecResult) (command : String)
    (timeout : Nat) (exitCode : Int) (stdout stderr : String)
    (h : oracle command = .ok exitCode stdout stderr) :
    execute_command oracle command timeout = specCombinedOutput stdout stderr := by
  unfold execute_command specCombinedOutput
  rw [h]
  by_cases hs : stderr = "" <;> by_cases ho : stdout = "" <;>
    simp [hs, ho, trim_empty, combined_ne_empty]

theorem execute_command_ok_witness :
    execute_command (fun _ => ExecResult.ok 0 "hello " "oops") "ls" 30 =
      specCombinedOutput "hello " "oops" :=
  execute_command_ok (fun _ => ExecResult.ok 0 "hello " "oops") "ls" 30 0
    "hello " "oops" rfl

/-- C2: for every command whose execution exceeds the timeout of `t` seconds,
`execute_command` returns exactly the literal marker `"[命令执行超时: {t}秒]"`;
the outcome is an ordinary return value, never an exception. -/
theorem execute_command_timeout (oracle : String → ExecResult)
    (command : String) (timeout : Nat) (h : oracle command = .timeout) :
    execute_command oracle command timeout =
      "[命令执行超时: " ++ toString timeout ++ "秒]" := by
  unfold execute_command
  rw [h]

theorem execute_command_timeout_witness :
    execute_command (fun _ => ExecResult.timeout) "sleep 5" 1 =
      "[命令执行超时: 1秒]" := by
  have h := execute_command_timeout (fun _ => ExecResult.timeout) "sleep 5" 1 rfl
  rw [h]
  rfl

/-- C3: a turn pair whose `from` fields are not exactly `("human", "gpt")` is
skipped without any mutation — both turns, in particular the second turn's
`value`, are unchanged — a warning for position `i` is recorded, and the loop
still advances by the fixed stride of 2 into the remaining turns. -/
theorem processPairs_skip (oracle : String → ExecResult) (timeout : Nat)
    (i : Nat) (human_entry gpt_entry : Turn) (rest : List Turn)
    (h : human_entry.fromField ≠ some "human" ∨ gpt_entry.fromField ≠ some "gpt") :
    processPairs oracle timeout i (human_entry :: gpt_entry :: rest) =
      (human_entry :: gpt_entry :: (processPairs oracle timeout (i + 2) rest).1,
       i :: (processPairs oracle timeout (i + 2) rest).2) := by
  rw [processPairs]
  rw [if_pos h]

theorem processPairs_skip_witness :
    processPairs (fun _ => ExecResult.timeout) 30 0
      [⟨some "gpt", some "a", []⟩, ⟨some "gpt", some "b", []⟩] =
      ([⟨some "gpt", some "a", []⟩, ⟨some "gpt", some "b", []⟩], [0]) := by
  rw [processPairs_skip (fun _ => ExecResult.timeout) 30 0
    ⟨some "gpt", some "a", []⟩ ⟨some "gpt", some "b", []⟩ []
    (Or.inl (by decide))]
  rw [processPairs]

/-- C6: a failure to launch or run the subprocess yields the literal marker
`"[命令执行错误: {message}]"` as an ordinary return value, and the exit code of
a command that does run is never inspected: two oracles that complete with
the same stdout/stderr but different exit codes give identical results. -/
theorem execute_command_error_and_exit_code
    (oracle oracle2 : String → ExecResult) (command : String) (timeout : Nat)
    (msg : String) :
    (oracle command = .error msg →
      execute_command oracle command timeout = "[命令执行错误: " ++ msg ++ "]") ∧
    (∀ (code code2 : Int) (stdout stderr : String),
      oracle command = .ok code stdout stderr →
      oracle2 command = .ok code2 stdout stderr →
      execute_command oracle command timeout =
        execute_command oracle2 command timeout) := by
  constructor
  · intro h
    unfold execute_command
    rw [h]
  · intro code code2 stdout stderr h1 h2
    unfold execute_command
    rw [h1, h2]

theorem execute_command_error_and_exit_code_witness :
    execute_command (fun _ => ExecResult.error "boom") "x" 5 =
      "[命令执行错误: " ++ "boom" ++ "]" ∧
    execute_command (fun _ => ExecResult.ok 0 "out" "err") "x" 5 =
      execute_command (fun _ => ExecResult.ok 1 "out" "err") "x" 5 :=
  ⟨(execute_command_error_and_exit_code (fun _ => ExecResult.error "boom")
      (fun _ => ExecResult.error "boom") "x" 5 "boom").1 rfl,
   (execute_command_error_and_exit_code (fun _ => ExecResult.ok 0 "out" "err")
      (fun _ => ExecResult.ok 1 "out" "err") "x" 5 "boom").2 0 1 "out" "err"
      rfl rfl⟩

/-- C7: pairs are consumed at positions (0,1), (2,3), … with stride 2; an
empty turn list and a final unpaired trailing turn are left as-is without
error, a conversation with no `conversations` field is processed as zero
pairs and returned unchanged, and a valid pair advances the loop by exactly
two positions into the remaining turns. -/
theorem pairing_behavior (oracle : String → ExecResult) (timeout : Nat) :
    (∀ i, processPairs oracle timeout i ([] : List Turn) = ([], [])) ∧
    (∀ i t, processPairs oracle timeout i [t] = ([t], [])) ∧
    (∀ c : Conversation, c.conversations = none →
      processConversation oracle timeout c = c) ∧
    (∀ i (human_entry gpt_entry : Turn) (rest : List Turn),
      human_entry.fromField = some "human" → gpt_entry.fromField = some "gpt" →
      processPairs oracle timeout i (human_entry :: gpt_entry :: rest) =
        (human_entry ::
          { gpt_entry with
            value := some (execute_command oracle (human_entry.value.getD "") timeout) } ::
          (processPairs oracle timeout (i + 2) rest).1,
         (processPairs oracle timeout (i + 2) rest).2)) := by
  refine ⟨fun i => rfl, fun i t => rfl, ?_, ?_⟩
  · intro c hc
    unfold processConversation
    rw [hc]
  · intro i human_entry gpt_entry rest hh hg
    rw [processPairs]
    rw [if_neg (by simp [hh, hg])]

theorem pairing_behavior_witness :
    processConversation (fun _ => ExecResult.timeout) 30 ⟨none, [("id", "7")]⟩ =
      ⟨none, [("id", "7")]⟩ ∧
    processPairs (fun _ => ExecResult.timeout) 30 0
      [⟨some "human", some "ls", []⟩, ⟨some "gpt", some "", []⟩] =
      ([⟨some "human", some "ls", []⟩,
        ⟨some "gpt",
          some (execute_command (fun _ => ExecResult.timeout) "ls" 30), []⟩],
       []) := by
  constructor
  · exact (pairing_behavior (fun _ => ExecResult.timeout) 30).2.2.1
      ⟨none, [("id", "7")]⟩ rfl
  · rw [(pairing_behavior (fun _ => ExecResult.timeout) 30).2.2.2 0
      ⟨some "human", some "ls", []⟩ ⟨some "gpt", some "", []⟩ [] rfl rfl]
    simp [processPairs]

/-- C8: the effective end index never exceeds the dataset length, and an
`--end` value at or beyond the dataset length behaves exactly like leaving
`--end` unset — processing stops at the dataset length with no out-of-bounds
access and no error. -/
theorem end_clamping (oracle : String → ExecResult) (timeout : Nat)
    (data : List Conversation) (start_index : Nat) :
    (∀ end_index : Option Nat,
      effectiveEnd data.length end_index ≤ data.length) ∧
    (∀ end_val : Nat, data.length ≤ end_val →
      process_conversations oracle timeout data start_index (some end_val) =
        process_conversations oracle timeout data start_index none) := by
  constructor
  · intro end_index
    cases end_index with
    | none => exact Nat.le_refl _
    | some e =>
        simp only [effectiveEnd]
        split <;> omega
  · intro end_val hle
    have he : effectiveEnd data.length (some end_val) =
        effectiveEnd data.length none := by
      simp only [effectiveEnd]
      split <;> omega
    simp only [process_conversations]
    rw [he]

theorem end_clamping_witness :
    process_conversations (fun _ => ExecResult.timeout) 30
      [⟨none, []⟩] 0 (some 5) =
      process_conversations (fun _ => ExecResult.timeout) 30 [⟨none, []⟩] 0 none :=
  (end_clamping (fun _ => ExecResult.timeout) 30 [⟨none, []⟩] 0).2 5 (by decide)

/-- C9: the processing loop is a deterministic function of the input dataset,
the range parameters and the command-execution results: two runs over the
same data with oracles that agree on every command produce identical final
datasets and identical sequences of file writes. -/
theorem process_deterministic (oracle oracle2 : String → ExecResult)
    (timeout : Nat) (data : List Conversation) (start_index : Nat)
    (end_index : Option Nat) (h : ∀ c, oracle c = oracle2 c) :
    process_conversations oracle timeout data start_index end_index =
      process_conversations oracle2 timeout data start_index end_index := by
  have heq : oracle = oracle2 := funext h
  rw [heq]

theorem process_deterministic_witness :
    process_conversations (fun _ => ExecResult.ok 0 "a" "") 30
      [⟨some [⟨some "human", some "pwd", []⟩, ⟨some "gpt", some "", []⟩], []⟩]
      0 none =
      process_conversations (fun _ => ExecResult.ok 0 "a" "") 30
      [⟨some [⟨some "human", some "pwd", []⟩, ⟨some "gpt", some "", []⟩], []⟩]
      0 none :=
  process_deterministic (fun _ => ExecResult.ok 0 "a" "")
    (fun _ => ExecResult.ok 0 "a" "") 30
    [⟨some [⟨some "human", some "pwd", []⟩, ⟨some "gpt", some "", []⟩], []⟩]
    0 none (fun _ => rfl)

/-- C10: when the effective range is empty (start index at or beyond the
clamped end index) no conversation is mutated, yet the unconditional final
save still runs: the run returns the dataset unchanged and writes exactly one
copy of it to the output path. -/
theorem empty_range_still_saves (oracle : String → ExecResult) (timeout : Nat)
    (data : List Conversation) (start_index : Nat) (end_index : Option Nat)
    (h : effectiveEnd data.length end_index ≤ start_index) :
    process_conversations oracle timeout data start_index end_index =
      (data, [data]) := by
  simp only [process_conversations]
  have hz : effectiveEnd data.length end_index - start_index = 0 := by omega
  rw [hz]
  rw [runLoop]
  simp

theorem empty_range_still_saves_witness :
    process_conversations (fun _ => ExecResult.timeout) 30
      [⟨none, [("k", "v")]⟩] 5 none =
      ([⟨none, [("k", "v")]⟩], [[⟨none, [("k", "v")]⟩]]) :=
  empty_range_still_saves (fun _ => ExecResult.timeout) 30
    [⟨none, [("k", "v")]⟩] 5 none (by decide)

/-- Updating one entry preserves the dataset length. -/
theorem length_updateAt (oracle : String → ExecResult) (timeout : Nat)
    (data : List Conversation) (i : Nat) :
    (updateAt oracle timeout data i).length = data.length := by
  unfold updateAt
  cases h : data[i]? with
  | none => rfl
  | some c => simp

/-- Pointwise description of `updateAt`. -/
theorem getElem?_updateAt (oracle : String → ExecResult) (timeout : Nat)
    (data : List Conversation) (i j : Nat) :
    (updateAt oracle timeout data i)[j]? =
      if j = i then (data[i]?).map (processConversation oracle timeout)
      else data[j]? := by
  unfold updateAt
  cases h : data[i]? with
  | none =>
      by_cases hj : j = i
      · subst hj
        simp [h]
      · rw [if_neg hj]
  | some c =>
      obtain ⟨hi, -⟩ := List.getElem?_eq_some_iff.mp h
      by_cases hj : j = i
      · subst hj
        simp [List.getElem?_set, hi, h]
      · rw [List.getElem?_set, if_neg (fun hh => hj hh.symm), if_neg hj]

/-- The final dataset of one loop step. -/
theorem runLoop_fst_succ (oracle : String → ExecResult) (timeout : Nat)
    (s n : Nat) (data : List Conversation) :
    (runLoop oracle timeout s (n + 1) data).1 =
      (runLoop oracle timeout (s + 1) n (updateAt oracle timeout data s)).1 := by
  rw [runLoop]
  split <;> rfl

/-- The snapshots of one loop step. -/
theorem runLoop_snd_succ (oracle : String → ExecResult) (timeout : Nat)
    (s n : Nat) (data : List Conversation) :
    (runLoop oracle timeout s (n + 1) data).2 =
      if (s + 1) % 10 = 0 then
        updateAt oracle timeout data s ::
          (runLoop oracle timeout (s + 1) n (updateAt oracle timeout data s)).2
      else (runLoop oracle timeout (s + 1) n (updateAt oracle timeout data s)).2 := by
  rw [runLoop]
  split <;> rfl

/-- The loop preserves the dataset length. -/
theorem runLoop_fst_length (oracle : String → ExecResult) (timeout : Nat) :
    ∀ (n s : Nat) (data : List Conversation),
      ((runLoop oracle timeout s n data).1).length = data.length := by
  intro n
  induction n with
  | zero => intro s data; rfl
  | succ n ih =>
      intro s data
      rw [runLoop_fst_succ, ih, length_updateAt]

/-- Pointwise description of the loop's final dataset: entries with index in
`[s, s + n)` are processed, all others are untouched. -/
theorem runLoop_fst_getElem? (oracle : String → ExecResult) (timeout : Nat) :
    ∀ (n s : Nat) (data : List Conversation) (j : Nat),
      ((runLoop oracle timeout s n data).1)[j]? =
        if s ≤ j ∧ j < s + n then
          (data[j]?).map (processConversation oracle timeout)
        else data[j]? := by
  intro n
  induction n with
  | zero =>
      intro s data j
      rw [if_neg (by omega)]
      rfl
  | succ n ih =>
      intro s data j
      rw [runLoop_fst_succ, ih, getElem?_updateAt]
      by_cases hj : j = s
      · subst hj
        rw [if_neg (by omega), if_pos rfl, if_pos (by omega)]
      · rw [if_neg hj]
        by_cases hin : s + 1 ≤ j ∧ j < s + 1 + n
        · rw [if_pos hin, if_pos (by omega)]
        · rw [if_neg hin, if_neg (by omega)]

/-- Processing zero conversations leaves the dataset unmodified. -/
theorem processedUpTo_zero (oracle : String → ExecResult) (timeout : Nat)
    (data : List Conversation) : processedUpTo oracle timeout data 0 = data := by
  simp [processedUpTo]

/-- Pointwise description of `processedUpTo`. -/
theorem getElem?_processedUpTo (oracle : String → ExecResult) (timeout : Nat) :
    ∀ (data : List Conversation) (n j : Nat),
      (processedUpTo oracle timeout data n)[j]? =
        if j < n then (data[j]?).map (processConversation oracle timeout)
        else data[j]? := by
  intro data
  induction data with
  | nil => intro n j; simp [processedUpTo]
  | cons c cs ih =>
      intro n j
      cases n with
      | zero => simp [processedUpTo_zero]
      | succ n =>
          have hcons : processedUpTo oracle timeout (c :: cs) (n + 1) =
              processConversation oracle timeout c ::
                processedUpTo oracle timeout cs n := by
            simp [processedUpTo]
          rw [hcons]
          cases j with
          | zero => simp
          | succ j =>
              simp only [List.getElem?_cons_succ]
              rw [ih]
              by_cases hj : j < n
              · rw [if_pos hj, if_pos (by omega)]
              · rw [if_neg hj, if_neg (by omega)]

/-- Starting from index 0, the loop's final dataset is exactly
`processedUpTo` at the fuel. -/
theorem runLoop_fst_eq_processedUpTo (oracle : String → ExecResult)
    (timeout : Nat) (n : Nat) (data : List Conversation) :
    (runLoop oracle timeout 0 n data).1 = processedUpTo oracle timeout data n := by
  apply List.ext_getElem?
  intro j
  rw [runLoop_fst_getElem?, getElem?_processedUpTo]
  by_cases hj : j < n
  · rw [if_pos (by omega), if_pos hj]
  · rw [if_neg (by omega), if_neg hj]

/-- The checkpoint snapshots of the loop: one snapshot for each index `k` in
`[s, s + n)` with `(k + 1) % 10 = 0`, holding the loop's state just after
processing index `k`. -/
theorem runLoop_snd_eq (oracle : String → ExecResult) (timeout : Nat) :
    ∀ (n s : Nat) (data : List Conversation),
      (runLoop oracle timeout s n data).2 =
        ((List.range' s n).filter (fun k => (k + 1) % 10 = 0)).map
          (fun k => (runLoop oracle timeout s (k + 1 - s) data).1) := by
  intro n
  induction n with
  | zero => intro s data; rfl
  | succ n ih =>
      intro s data
      rw [runLoop_snd_succ, List.range'_succ, List.filter_cons, ih]
      have hhead : (runLoop oracle timeout s (s + 1 - s) data).1 =
          updateAt oracle timeout data s := by
        have h1 : s + 1 - s = 1 := by omega
        rw [h1, runLoop_fst_succ]
        rfl
      have htail :
          ((List.range' (s + 1) n).filter (fun k => (k + 1) % 10 = 0)).map
              (fun k => (runLoop oracle timeout (s + 1) (k + 1 - (s + 1))
                (updateAt oracle timeout data s)).1) =
            ((List.range' (s + 1) n).filter (fun k => (k + 1) % 10 = 0)).map
              (fun k => (runLoop oracle timeout s (k + 1 - s) data).1) := by
        apply List.map_eq_map_iff.mpr
        intro k hk
        have hks : s + 1 ≤ k := by
          have := (List.mem_range'_1.mp (List.mem_of_mem_filter hk)).1
          omega
        have h2 : k + 1 - s = (k + 1 - (s + 1)) + 1 := by omega
        rw [h2, runLoop_fst_succ]
      by_cases hmod : (s + 1) % 10 = 0
      · rw [if_pos hmod, if_pos (by simp [hmod])]
        rw [List.map_cons, hhead, htail]
      · rw [if_neg hmod, if_neg (by simp [hmod])]
        rw [htail]

/-- C4: with default start and end, the states written to the output file
are exactly one checkpoint after each conversation index `k` with
`(k + 1) % 10 = 0` — containing the processed values for every conversation
with index ≤ k and the unmodified values for every index > k — followed by
the final save of the fully processed dataset. -/
theorem checkpoint_property (oracle : String → ExecResult) (timeout : Nat)
    (data : List Conversation) :
    (process_conversations oracle timeout data 0 none).2 =
      ((List.range data.length).filter (fun k => (k + 1) % 10 = 0)).map
        (fun k => processedUpTo oracle timeout data (k + 1)) ++
      [processedUpTo oracle timeout data data.length] := by
  simp only [process_conversations, effectiveEnd]
  rw [Nat.sub_zero, runLoop_snd_eq, runLoop_fst_eq_processedUpTo,
    List.range_eq_range']
  congr 1
  apply List.map_eq_map_iff.mpr
  intro k hk
  rw [Nat.sub_zero, runLoop_fst_eq_processedUpTo]

/-- Induction on a list two elements at a time, matching the stride-2 pair
loop. -/
theorem twoStepInduction {α : Type} {P : List α → Prop} (h0 : P [])
    (h1 : ∀ a, P [a]) (h2 : ∀ a b l, P l → P (a :: b :: l)) :
    ∀ l : List α, P l
  | [] => h0
  | [a] => h1 a
  | a :: b :: l => h2 a b l (twoStepInduction h0 h1 h2 l)

/-- The pair loop preserves the number of turns. -/
theorem processPairs_length (oracle : String → ExecResult) (timeout : Nat) :
    ∀ ts : List Turn, ∀ i : Nat,
      ((processPairs oracle timeout i ts).1).length = ts.length := by
  apply twoStepInduction
  · intro i; rfl
  · intro a i; rfl
  · intro a b l ih i
    rw [processPairs]
    split <;> simp [ih]

/-- Turns at even positions (the human side of each pair) are unchanged by
the pair loop. -/
theorem processPairs_getElem?_even (oracle : String → ExecResult)
    (timeout : Nat) :
    ∀ ts : List Turn, ∀ i j : Nat, j % 2 = 0 →
      ((processPairs oracle timeout i ts).1)[j]? = ts[j]? := by
  apply twoStepInduction
  · intro i j hj; rfl
  · intro a i j hj; rfl
  · intro a b l ih i j hj
    rcases j with _ | _ | j
    · rw [processPairs]; split <;> rfl
    · omega
    · rw [processPairs]
      have htail := ih (i + 2) j (by omega)
      split <;> simpa using htail

/-- The pair loop preserves every turn's `from` field and extra fields. -/
theorem processPairs_getElem?_proj (oracle : String → ExecResult)
    (timeout : Nat) :
    ∀ ts : List Turn, ∀ i j : Nat,
      (((processPairs oracle timeout i ts).1)[j]?).map
          (fun turn : Turn => (turn.fromField, turn.other)) =
        (ts[j]?).map (fun turn : Turn => (turn.fromField, turn.other)) := by
  apply twoStepInduction
  · intro i j; rfl
  · intro a i j; rfl
  · intro a b l ih i j
    rcases j with _ | _ | j
    · rw [processPairs]; split <;> rfl
    · rw [processPairs]; split <;> simp
    · rw [processPairs]
      have htail := ih (i + 2) j
      split <;> simpa using htail

/-- The second turn of an invalidly-paired pair is unchanged by the pair
loop. -/
theorem processPairs_getElem?_invalid (oracle : String → ExecResult)
    (timeout : Nat) :
    ∀ ts : List Turn, ∀ (i j : Nat) (hu gu : Turn), j % 2 = 0 →
      ts[j]? = some hu → ts[j + 1]? = some gu →
      (hu.fromField ≠ some "human" ∨ gu.fromField ≠ some "gpt") →
      ((processPairs oracle timeout i ts).1)[j + 1]? = ts[j + 1]? := by
  apply twoStepInduction
  · intro i j hu gu hj hh hg hbad
    simp at hh
  · intro a i j hu gu hj hh hg hbad
    rcases j with _ | j
    · simp at hg
    · simp at hh
  · intro a b l ih i j hu gu hj hh hg hbad
    rcases j with _ | _ | j
    · simp only [List.getElem?_cons_zero, Option.some_inj] at hh
      simp only [List.getElem?_cons_succ, List.getElem?_cons_zero,
        Option.some_inj] at hg
      subst hh
      subst hg
      rw [processPairs, if_pos hbad]
      simp
    · omega
    · simp only [List.getElem?_cons_succ] at hh hg
      have htail := ih (i + 2) j hu gu (by omega) hh hg hbad
      rw [processPairs]
      split <;> simpa using htail

/-- The frame contract is reflexive. -/
theorem conversationFramePreserved_refl (c : Conversation) :
    conversationFramePreserved c c := by
  refine ⟨rfl, ?_⟩
  cases h : c.conversations with
  | none => exact Or.inl ⟨rfl, rfl⟩
  | some ts =>
      exact Or.inr ⟨ts, ts, rfl, rfl, rfl, fun j hj => rfl, fun j => rfl,
        fun j hu gu hj hh hg hbad => rfl⟩

/-- Processing one conversation obeys the frame contract. -/
theorem processConversation_frame (oracle : String → ExecResult)
    (timeout : Nat) (c : Conversation) :
    conversationFramePreserved c (processConversation oracle timeout c) := by
  unfold processConversation
  cases h : c.conversations with
  | none => exact conversationFramePreserved_refl c
  | some ts =>
      refine ⟨rfl, Or.inr ⟨ts, (processPairs oracle timeout 0 ts).1, h, rfl,
        processPairs_length oracle timeout ts 0,
        fun j hj => processPairs_getElem?_even oracle timeout ts 0 j hj,
        fun j => processPairs_getElem?_proj oracle timeout ts 0 j,
        fun j hu gu hj hh hg hbad =>
          processPairs_getElem?_invalid oracle timeout ts 0 j hu gu hj hh hg hbad⟩⟩

/-- C5: a run mutates only the `value` fields of `gpt` turns inside
validly-paired turns of conversations with index in `[start, end)`: the
dataset length is unchanged, conversations outside that range are
byte-for-byte unchanged, and inside the range every human turn, every `from`
field, every extra field, and every invalidly-paired gpt turn is unchanged. -/
theorem frame_effect (oracle : String → ExecResult) (timeout : Nat)
    (data : List Conversation) (start_index : Nat) (end_index : Option Nat) :
    ((process_conversations oracle timeout data start_index end_index).1).length
        = data.length ∧
    (∀ i : Nat,
      (i < start_index ∨ effectiveEnd data.length end_index ≤ i) →
      ((process_conversations oracle timeout data start_index end_index).1)[i]?
        = data[i]?) ∧
    (∀ (i : Nat) (c c2 : Conversation), data[i]? = some c →
      ((process_conversations oracle timeout data start_index end_index).1)[i]?
        = some c2 →
      conversationFramePreserved c c2) := by
  have hfst : (process_conversations oracle timeout data start_index end_index).1
      = (runLoop oracle timeout start_index
          (effectiveEnd data.length end_index - start_index) data).1 := rfl
  refine ⟨?_, ?_, ?_⟩
  · rw [hfst, runLoop_fst_length]
  · intro i hi
    rw [hfst, runLoop_fst_getElem?, if_neg (by omega)]
  · intro i c c2 hc hc2
    rw [hfst, runLoop_fst_getElem?] at hc2
    by_cases hin : start_index ≤ i ∧
        i < start_index + (effectiveEnd data.length end_index - start_index)
    · rw [if_pos hin, hc] at hc2
      simp only [Option.map_some', Option.some_inj] at hc2
      rw [← hc2]
      exact processConversation_frame oracle timeout c
    · rw [if_neg hin, hc] at hc2
      simp only [Option.some_inj] at hc2
      rw [← hc2]
      exact conversationFramePreserved_refl c

theorem frame_effect_witness :
    ((process_conversations (fun _ => ExecResult.timeout) 30
      [⟨some [⟨some "human", some "ls", []⟩], [("id", "0")]⟩] 1 none).1)[0]? =
      some ⟨some [⟨some "human", some "ls", []⟩], [("id", "0")]⟩ :=
  (frame_effect (fun _ => ExecResult.timeout) 30
    [⟨some [⟨some "human", some "ls", []⟩], [("id", "0")]⟩] 1 none).2.1 0
    (Or.inl (by decide))

end ExecCmd
